import Mathlib

/-!
Verification of the token_test repository.

Shallow embedding, in Lean 4, of the core logic of the `token_test`
repository (a multi-tokenizer corpus accounting tool plus a throughput-based
training-time estimator), together with proofs settling the frozen claims
C1–C10 about its natural-language specification.

Embedded components and their sources:
* `Json`, `extractTextFromJson` — `src/TokenizerComparator.py`,
  `_extract_text_from_json` (the heterogeneous-record field-extraction
  heuristic).  Python `" ".join(...)` raises `TypeError` when the joined
  list holds a non-string; that fallible path is modelled with `Except`.
* `jsonlTexts` / `loadLocalDatasetJsonl` — `src/TokenizerComparator.py`,
  `_load_local_dataset`, JSONL branch (lines 97–137).  JSON parsing itself
  is external input here: a file is a list of raw lines paired with the
  parse result of the stripped line (`none` = `json.JSONDecodeError`).
* `processDataset` — `src/TokenizerComparator.py`, `process_dataset`.
  A loaded tokenizer is a name plus an `encode` function returning the
  token count (`none` = the tokenizer raised on that sample).
* `expandSelection` — `src/run.py`, `run_tokenizer_comparison`
  (the "all models" placeholder expansion, lines 128–139).
* `loadTokenizers` — `src/TokenizerComparator.py`, `load_tokenizers`.
  The `AutoTokenizer.from_pretrained` outcome is an oracle parameter
  (`tryLoad`, `none` = the load raised).
* `estimateTrainingTime`, `formatTime` — `src/tempCodeRunnerFile.py`,
  `TrainingTimeEstimator.estimate_training_time` / `format_time` (the
  config-driven estimator variant the claims cite; the `gpu_type` variant
  in `src/TrainingTimeEstimator.py` has the very same `format_time` body
  and the same efficiency-factor table).  Python floats are modelled as ℚ.
* `scaleTokenTable` — modelled from the spec (§4.3 Corpus Scaler): the
  repository source contains no scaler implementation.
-/

/-- A parsed JSON value as produced by Python's `json.loads`: strings,
integers, booleans, null, arrays and objects (an object is the ordered
key/value list of the Python dict; `json.loads` never produces duplicate
keys). -/
inductive Json where
  | str : String → Json
  | num : Int → Json
  | bool : Bool → Json
  | null : Json
  | arr : List Json → Json
  | obj : List (String × Json) → Json

/-- Python truthiness of a JSON value (`if value:`): empty strings, zero,
`False`, `None`, empty lists and empty dicts are falsy. -/
def truthy : Json → Bool
  | .str s => !s.isEmpty
  | .num n => n != 0
  | .bool b => b
  | .null => false
  | .arr xs => !xs.isEmpty
  | .obj fs => !fs.isEmpty

/-- Python dict key membership / item access `item[key]` (first occurrence;
dicts from `json.loads` have unique keys). -/
def jGet : List (String × Json) → String → Option Json
  | [], _ => none
  | (k, v) :: rest, key => if k = key then some v else jGet rest key

mutual

/-- Python `repr` of a JSON value, as used by `str(obj)` on containers:
single-quoted strings, `True`/`False`/`None`, `[..]` lists, `\x7b..\x7d`
dicts. -/
def pyRepr : Json → String
  | .str s => "\x27" ++ s ++ "\x27"
  | .num n => toString n
  | .bool b => if b then "True" else "False"
  | .null => "None"
  | .arr xs => "[" ++ String.intercalate ", " (pyReprList xs) ++ "]"
  | .obj fs => "\x7b" ++ String.intercalate ", " (pyReprFields fs) ++ "\x7d"

/-- `repr` of each element of a JSON array. -/
def pyReprList : List Json → List String
  | [] => []
  | x :: xs => pyRepr x :: pyReprList xs

/-- `repr` of each `'key': value` entry of a JSON object. -/
def pyReprFields : List (String × Json) → List String
  | [] => []
  | (k, v) :: fs => ("\x27" ++ k ++ "\x27: " ++ pyRepr v) :: pyReprFields fs

end

/-- Python `str` of a JSON value: the string itself for strings, `repr`
recursively inside containers. -/
def pyStr : Json → String
  | .str s => s
  | v => pyRepr v

/-- Python `" ".join(xs)` over a list of JSON values: succeeds with the
space-joined strings when every element is a string, raises `TypeError`
(modelled as `Except.error ()`) otherwise. -/
def joinStrings (xs : List Json) : Except Unit String :=
  if xs.all (fun x => match x with | .str _ => true | _ => false) then
    .ok (String.intercalate " " (xs.map fun x => match x with | .str s => s | _ => ""))
  else
    .error ()

/-- The fixed priority list of text-bearing field names scanned by
`_extract_text_from_json` after the instruction/input/output rule. -/
def textFieldNames : List String :=
  ["text", "content", "article", "body", "question", "input", "output",
   "prompt", "context", "answer", "choices", "option", "options", "instruction"]

/-- The instruction/input/output parts list built by rule (1) of
`_extract_text_from_json`: for each of the three keys in order, `str()` of
its value when the value is truthy. -/
def tripleParts (fs : List (String × Json)) : List String :=
  (["instruction", "input", "output"].filterMap fun k =>
    match jGet fs k with
    | some v => if truthy v then some (pyStr v) else none
    | none => none)

example : tripleParts [("instruction", .str "a"), ("input", .str ""), ("output", .str "b")] = ["a", "b"] := by decide
example : truthy (.num 0) = false := by decide
example : pyRepr (.obj [("a", .num 1)]) = "\x7b\x27a\x27: 1\x7d" := by decide
example : joinStrings [.str "a", .num 1] = .error () := rfl
example : joinStrings [.str "a", .str "b"] = .ok "a b" := rfl
example : pyRepr (.obj [("a", .num 1)]) = "\x7b\x27a\x27: 1\x7d" := rfl

/-- A value found by `jGet` is structurally smaller than the field list it
came from (used for termination of the extraction recursion). -/
theorem jGet_sizeOf_lt {fs : List (String × Json)} {k : String} {v : Json}
    (h : jGet fs k = some v) : sizeOf v < sizeOf fs := by
  induction fs with
  | nil => simp [jGet] at h
  | cons p rest ih =>
    obtain ⟨a, b⟩ := p
    by_cases hk : a = k
    · simp [jGet, hk] at h
      subst h
      simp
      omega
    · simp [jGet, hk] at h
      have := ih h
      simp
      omega

/-- Rule (3) of `_extract_text_from_json`: scan the dict entries in order;
return the first non-empty string value, or `" ".join` of the first
non-empty list value whose head is a string (which raises when the list
also holds non-strings).  Non-recursive. -/
def anyStringScan : List (String × Json) → Except Unit (Option String)
  | [] => .ok none
  | (_, v) :: rest =>
    match v with
    | .str s => if s.isEmpty then anyStringScan rest else .ok (some s)
    | .arr (x :: xs) =>
      match x with
      | .str _ => (joinStrings (x :: xs)).map some
      | _ => anyStringScan rest
    | _ => anyStringScan rest

mutual

/-- `TokenizerComparator._extract_text_from_json`, translated clause by
clause.  `.error ()` models the Python `TypeError` raised by `" ".join`
over a list holding a non-string; `.ok none` models `return None`;
`.ok (some s)` models returning the string `s` (possibly empty). -/
def extractTextFromJson (item : Json) : Except Unit (Option String) :=
  match item with
  | .obj fs =>
    if (jGet fs "instruction").isSome && (jGet fs "input").isSome
        && (jGet fs "output").isSome then
      let parts := tripleParts fs
      if parts.isEmpty then extractFromDict fs
      else .ok (some (String.intercalate "\n" parts))
    else extractFromDict fs
  | .str s => .ok (if s.isEmpty then none else some s)
  | .arr xs =>
    match xs with
    | .str s :: rest => (joinStrings (.str s :: rest)).map some
    | _ => .ok none
  | _ => .ok none
termination_by (sizeOf item, 0, 0)
decreasing_by
  all_goals simp_wf
  all_goals simp [Prod.lex_def]

/-- Continuation for a dict after the instruction/input/output rule did not
return: the priority-field scan (rule 2), then the any-string-value scan
(rule 3), then the nested-composite scan (rule 4). -/
def extractFromDict (fs : List (String × Json)) : Except Unit (Option String) :=
  match priorityScan textFieldNames fs with
  | .error e => .error e
  | .ok (some s) => .ok (some s)
  | .ok none =>
    match anyStringScan fs with
    | .error e => .error e
    | .ok (some s) => .ok (some s)
    | .ok none => nestedScan fs
termination_by (sizeOf fs, 4, 0)
decreasing_by
  all_goals simp [Prod.lex_def]

/-- Rule (2) of `_extract_text_from_json`: walk the fixed priority list of
field names; a present truthy string value is returned; a present truthy
list value is joined from its string elements and recursively extracted
dict elements when that yields anything; otherwise keep scanning. -/
def priorityScan (names : List String) (fs : List (String × Json)) :
    Except Unit (Option String) :=
  match names with
  | [] => .ok none
  | f :: rest =>
    match h : jGet fs f with
    | some v =>
      if truthy v then
        match v with
        | .str s => .ok (some s)
        | .arr elems =>
          match strDictParts elems with
          | .error e => .error e
          | .ok parts =>
            if parts.isEmpty then priorityScan rest fs
            else .ok (some (String.intercalate " " parts))
        | _ => priorityScan rest fs
      else priorityScan rest fs
    | none => priorityScan rest fs
termination_by (sizeOf fs, 3, names.length)
decreasing_by
  all_goals simp_wf
  all_goals simp [Prod.lex_def]
  all_goals (have hv := jGet_sizeOf_lt h; simp at hv; omega)

/-- The `text_parts` builder of rule (2): string elements are kept, dict
elements are recursively extracted and kept when truthy, everything else is
skipped. -/
def strDictParts : List Json → Except Unit (List String)
  | [] => .ok []
  | p :: ps =>
    match p with
    | .str s => (strDictParts ps).map fun ts => s :: ts
    | .obj gs =>
      match extractTextFromJson (.obj gs) with
      | .error e => .error e
      | .ok (some s) =>
        if s.isEmpty then strDictParts ps
        else (strDictParts ps).map fun ts => s :: ts
      | .ok none => strDictParts ps
    | _ => strDictParts ps
termination_by ps => (sizeOf ps, 2, 0)
decreasing_by
  all_goals simp_wf
  all_goals simp [Prod.lex_def]
  all_goals try omega

/-- Rule (4) of `_extract_text_from_json`: scan the dict values in order;
recurse into the first dict value (accepting a truthy result) or the first
list value headed by a dict (joining the truthy recursive extractions). -/
def nestedScan : List (String × Json) → Except Unit (Option String)
  | [] => .ok none
  | (_, v) :: rest =>
    match v with
    | .obj gs =>
      match extractTextFromJson (.obj gs) with
      | .error e => .error e
      | .ok (some s) => if s.isEmpty then nestedScan rest else .ok (some s)
      | .ok none => nestedScan rest
    | .arr (.obj g :: xs) =>
      match dictListParts (.obj g :: xs) with
      | .error e => .error e
      | .ok parts =>
        if parts.isEmpty then nestedScan rest
        else .ok (some (String.intercalate " " parts))
    | _ => nestedScan rest
termination_by fs => (sizeOf fs, 1, 0)
decreasing_by
  all_goals simp_wf
  all_goals simp [Prod.lex_def]
  all_goals try omega

/-- The `text_parts` builder of rule (4): every element is recursively
extracted and kept when the extraction is truthy. -/
def dictListParts : List Json → Except Unit (List String)
  | [] => .ok []
  | sub :: subs =>
    match extractTextFromJson sub with
    | .error e => .error e
    | .ok (some s) =>
      if s.isEmpty then dictListParts subs
      else (dictListParts subs).map fun ts => s :: ts
    | .ok none => dictListParts subs
termination_by subs => (sizeOf subs, 2, 0)
decreasing_by
  all_goals simp_wf
  all_goals simp [Prod.lex_def]
  all_goals try omega

end

/-- ASCII whitespace, as stripped by Python's `str.strip()` (Python also
strips some rarer Unicode whitespace; the files at hand are ASCII-framed). -/
def isSpaceChar (c : Char) : Bool :=
  c = ' ' || c = '\t' || c = '\n' || c = '\r' || c = '\x0b' || c = '\x0c'

/-- Python `line.strip()`: drop leading and trailing whitespace. -/
def pyStrip (s : String) : String :=
  String.mk (((s.data.dropWhile isSpaceChar).reverse.dropWhile isSpaceChar).reverse)

/-- The JSONL branch of `TokenizerComparator._load_local_dataset`
(lines 104–128): one input line is the raw line text paired with the result
of `json.loads` on the stripped line (`none` models `json.JSONDecodeError`).
Blank lines are skipped; a decode error keeps the stripped line itself as
the sample; a parsed record contributes its extracted text, or `str(obj)`
when extraction returns nothing (or an empty string).  An exception raised
by extraction other than a decode error (`Except.error`) is not caught by
the per-line handler and aborts the whole file. -/
def jsonlTexts : List (String × Option Json) → Except Unit (List String)
  | [] => .ok []
  | (raw, parsed) :: rest =>
    let line := pyStrip raw
    if line.isEmpty then jsonlTexts rest
    else
      match parsed with
      | none => (jsonlTexts rest).map fun ts => line :: ts
      | some obj =>
        match extractTextFromJson obj with
        | .error e => .error e
        | .ok ext =>
          let sample :=
            match ext with
            | some s => if s.isEmpty then pyStr obj else s
            | none => pyStr obj
          (jsonlTexts rest).map fun ts => sample :: ts

/-- `_load_local_dataset` on a JSONL file: the outer `except Exception`
handler (line 130) turns an escaped extraction exception into `None` for
the whole file. -/
def loadLocalDatasetJsonl (lines : List (String × Option Json)) :
    Option (List String) :=
  match jsonlTexts lines with
  | .ok ts => some ts
  | .error _ => none

/-- The per-model counters of `process_dataset`'s result dict. -/
structure TokCounts where
  total_tokens : ℕ
  error_count : ℕ
deriving DecidableEq

/-- A loaded tokenizer as `process_dataset` uses it: a display name plus
`encode`, which returns the token count of a sample (`len(tokens)`), or
`none` when the tokenizer raises on that sample. -/
structure Tokenizer where
  model_name : String
  encode : String → Option ℕ

/-- The result dict of `process_dataset`. -/
structure ProcessResults where
  total_bytes : ℕ
  sample_count : ℕ
  models : List (String × TokCounts)

/-- Python dict lookup on the `models` result dict (first occurrence). -/
def lookupName : List (String × TokCounts) → String → Option TokCounts
  | [], _ => none
  | (k, v) :: rest, n => if k = n then some v else lookupName rest n

/-- Python dict assignment `d[k] = v`: overwrite the existing entry in
place, else append a new entry at the end. -/
def dictInsert : List (String × TokCounts) → String → TokCounts →
    List (String × TokCounts)
  | [], k, v => [(k, v)]
  | (k', v') :: rest, k, v =>
    if k' = k then (k', v) :: rest else (k', v') :: dictInsert rest k v

/-- Python in-place update `d[k]['total_tokens'] += …`: modify the entry at
key `k`.  In `process_dataset` the key is always present (it was inserted
by the initialisation loop); on an absent key Python would raise
`KeyError`, modelled here as a no-op since the case is unreachable. -/
def updModels : List (String × TokCounts) → String → (TokCounts → TokCounts) →
    List (String × TokCounts)
  | [], _, _ => []
  | (k', v) :: rest, k, f =>
    if k' = k then (k', f v) :: rest else (k', v) :: updModels rest k f

/-- The counter-initialisation loop of `process_dataset` (lines 443–449):
each selected index that has a loaded tokenizer gets a `{0, 0}` entry keyed
by the tokenizer's display name. -/
def initModels (indices : List ℕ) (toks : ℕ → Option Tokenizer) :
    List (String × TokCounts) :=
  indices.foldl
    (fun m i =>
      match toks i with
      | some tk => dictInsert m tk.model_name ⟨0, 0⟩
      | none => m)
    []

/-- The inner loop of `process_dataset` (lines 459–468): one sample against
every selected loaded tokenizer; a successful encode adds the token count,
a raised encode increments the error count, and processing continues. -/
def innerLoop (toks : ℕ → Option Tokenizer) (indices : List ℕ) (text : String)
    (m : List (String × TokCounts)) : List (String × TokCounts) :=
  indices.foldl
    (fun m i =>
      match toks i with
      | none => m
      | some tk =>
        match tk.encode text with
        | some n => updModels m tk.model_name fun c => ⟨c.total_tokens + n, c.error_count⟩
        | none => updModels m tk.model_name fun c => ⟨c.total_tokens, c.error_count + 1⟩)
    m

/-- `TokenizerComparator.process_dataset`: `None` for an empty (falsy)
sample list; otherwise total bytes (UTF-8) and sample count are computed
up front, and the per-model counters are accumulated sample by sample. -/
def processDataset (texts : List String) (indices : List ℕ)
    (toks : ℕ → Option Tokenizer) : Option ProcessResults :=
  if texts.isEmpty then none
  else
    some
      { total_bytes := (texts.map fun t => t.utf8ByteSize).sum
        sample_count := texts.length
        models := texts.foldl (fun m text => innerLoop toks indices text m)
          (initModels indices toks) }

/-- A model descriptor entry as `run.py` and `load_tokenizers` read it
(the fields relevant to selection and loading). -/
structure ModelOption where
  name : String
  is_all_option : Bool
  auth_required : Bool
deriving DecidableEq

/-- The model-selection logic of `run.py` (`run_tokenizer_comparison`,
lines 128–139): the entered numbers are turned into in-range zero-based
indices; if an aggregate-placeholder entry exists and its number was
entered, the selection is replaced by all non-placeholder indices. -/
def expandSelection (models : List ModelOption) (choices : List ℤ) : List ℕ :=
  let selected := choices.filterMap fun c =>
    if 0 ≤ c - 1 ∧ c - 1 < (models.length : ℤ) then some (c - 1).toNat else none
  match models.findIdx? (fun m => m.is_all_option) with
  | some a =>
    if ((a : ℤ) + 1) ∈ choices then
      (List.range models.length).filter fun i =>
        match models[i]? with
        | some m => !m.is_all_option
        | none => false
    else selected
  | none => selected

/-- `TokenizerComparator.load_tokenizers`: walk the selected indices; skip
out-of-range indices, the aggregate placeholder, and auth-required models;
try loading the rest (`tryLoad i` is the `AutoTokenizer.from_pretrained`
outcome for model index `i`, `none` when it raises).  Returns the
`successful_models` index list and the `self.tokenizers` dict. -/
def loadTokenizers (models : List ModelOption)
    (tryLoad : ℕ → Option (String → Option ℕ)) (indices : List ℕ) :
    List ℕ × List (ℕ × Tokenizer) :=
  indices.foldl
    (fun acc i =>
      match models[i]? with
      | none => acc
      | some info =>
        if info.is_all_option then acc
        else if info.auth_required then acc
        else
          match tryLoad i with
          | some enc => (acc.1 ++ [i], acc.2 ++ [(i, ⟨info.name, enc⟩)])
          | none => acc)
    ([], [])

/-- One fine-tune-method entry of a model's throughput table
(`config.yaml` sub-mapping), with the code's defaults already applied
(`throughput` defaults to 0, `world_size` to 1). -/
structure MethodConfig where
  throughput : ℚ
  world_size : ℕ
deriving DecidableEq

/-- A model descriptor as the config-driven estimator reads it. -/
structure EstModelConfig where
  name : String
  is_all_option : Bool
  methods : List (String × MethodConfig)
deriving DecidableEq

/-- The `ValueError`s of `estimate_training_time`. -/
inductive EstimatorError where
  | unknownModel
  | unknownMethod
  | invalidThroughput
deriving DecidableEq

/-- `TrainingTimeEstimator.estimate_training_time`
(`src/tempCodeRunnerFile.py` lines 65–102, the config-driven variant):
find the first non-placeholder config with the given name, look up the
fine-tune method entry (a missing or empty entry is falsy, hence an
error), reject non-positive throughput, pick the efficiency factor from
the world-size bucket, and return
`(token_count*epochs / (throughput*world_size*efficiency), world_size,
throughput)`.  Python floats are modelled as ℚ.  (For `world_size = 0`
Python would raise `ZeroDivisionError`; in ℚ the division yields 0; no
claim exercises that case.) -/
def estimateTrainingTime (cfgs : List EstModelConfig) (token_count : ℚ)
    (model_name fine_tune_method : String) (epochs : ℚ) :
    Except EstimatorError (ℚ × ℕ × ℚ) :=
  match cfgs.find? (fun c => c.name == model_name && !c.is_all_option) with
  | none => .error .unknownModel
  | some mc =>
    match mc.methods.lookup fine_tune_method with
    | none => .error .unknownMethod
    | some m =>
      if m.throughput ≤ 0 then .error .invalidThroughput
      else
        let efficiency : ℚ :=
          if m.world_size = 1 then 95 / 100
          else if m.world_size ≤ 8 then 85 / 100
          else 65 / 100
        let total_tokens := token_count * epochs
        .ok (total_tokens / (m.throughput * m.world_size * efficiency),
             m.world_size, m.throughput)

/-- `TrainingTimeEstimator.format_time` (identical in both source
variants): non-positive input renders `"0秒"`; otherwise the float is
decomposed by repeated `//`/`%=` into days, hours, minutes and a residual
seconds value, a unit part is appended when its value is positive, and the
seconds part is appended when the residual is positive or no other part
was produced.  `int(x)` on the nonnegative residual equals `⌊x⌋`. -/
def formatTime (seconds : ℚ) : String :=
  if seconds ≤ 0 then "0秒"
  else
    let days : ℤ := ⌊seconds / 86400⌋
    let s1 : ℚ := seconds - 86400 * days
    let hours : ℤ := ⌊s1 / 3600⌋
    let s2 : ℚ := s1 - 3600 * hours
    let minutes : ℤ := ⌊s2 / 60⌋
    let s3 : ℚ := s2 - 60 * minutes
    let parts :=
      (if 0 < days then [toString days ++ "天"] else []) ++
      (if 0 < hours then [toString hours ++ "小时"] else []) ++
      (if 0 < minutes then [toString minutes ++ "分钟"] else [])
    let parts := if 0 < s3 ∨ parts = [] then parts ++ [toString ⌊s3⌋ ++ "秒"] else parts
    String.intercalate " " parts

/-- The error of the Corpus Scaler contract (spec §4.3). -/
inductive ScaleError where
  | invalidSize
deriving DecidableEq

/-- One token count multiplied by the scale factor `target / measured`,
truncated to an integer (the count and factor are nonnegative, so
truncation is the floor). -/
def scaleCount (count : ℕ) (measured target : ℚ) : ℕ :=
  (⌊(count : ℚ) * (target / measured)⌋).toNat

/-- Modelled from the spec: the repository source contains no Corpus Scaler
implementation (spec §4.3 is its only description).  `scale(per_model_tokens,
measured_size, target_size)` computes the single factor
`target_size / measured_size`, multiplies every model's token count by it
truncating to an integer, and fails with `InvalidSize` if either size is
non-positive. -/
def scaleTokenTable (table : List (String × ℕ)) (measured target : ℚ) :
    Except ScaleError (List (String × ℕ)) :=
  if target ≤ 0 ∨ measured ≤ 0 then .error .invalidSize
  else .ok (table.map fun p => (p.1, scaleCount p.2 measured target))

/-- The per-model effect of one sample on one tokenizer's counters: a
successful encode adds the token count, a raised encode adds one error. -/
def modelStep (enc : String → Option ℕ) (text : String) (c : TokCounts) : TokCounts :=
  match enc text with
  | some n => ⟨c.total_tokens + n, c.error_count⟩
  | none => ⟨c.total_tokens, c.error_count + 1⟩

/-- Sum of the token counts of the samples a tokenizer encodes
successfully. -/
def tokTotal (enc : String → Option ℕ) (texts : List String) : ℕ :=
  (texts.filterMap enc).sum

/-- Number of samples on which a tokenizer raises. -/
def errTotal (enc : String → Option ℕ) (texts : List String) : ℕ :=
  texts.countP fun t => (enc t).isNone

theorem lookupName_updModels_self (m : List (String × TokCounts)) (k : String)
    (f : TokCounts → TokCounts) :
    lookupName (updModels m k f) k = (lookupName m k).map f := by
  induction m with
  | nil => simp [lookupName, updModels]
  | cons p rest ih =>
    obtain ⟨k', v⟩ := p
    by_cases h : k' = k
    · simp [lookupName, updModels, h]
    · simp [lookupName, updModels, h, ih]

theorem lookupName_updModels_ne (m : List (String × TokCounts)) {k k' : String}
    (f : TokCounts → TokCounts) (h : k' ≠ k) :
    lookupName (updModels m k f) k' = lookupName m k' := by
  induction m with
  | nil => simp [lookupName, updModels]
  | cons p rest ih =>
    obtain ⟨k'', v⟩ := p
    by_cases h2 : k'' = k
    · subst h2
      simp [lookupName, updModels, Ne.symm h]
    · by_cases h3 : k'' = k'
      · simp [lookupName, updModels, h2, h3, h]
      · simp [lookupName, updModels, h2, h3, ih]

theorem lookupName_dictInsert_self (m : List (String × TokCounts)) (k : String)
    (v : TokCounts) : lookupName (dictInsert m k v) k = some v := by
  induction m with
  | nil => simp [lookupName, dictInsert]
  | cons p rest ih =>
    obtain ⟨k', v'⟩ := p
    by_cases h : k' = k
    · simp [lookupName, dictInsert, h]
    · simp [lookupName, dictInsert, h, ih]

theorem lookupName_dictInsert_ne (m : List (String × TokCounts)) {k k' : String}
    (v : TokCounts) (h : k' ≠ k) :
    lookupName (dictInsert m k v) k' = lookupName m k' := by
  induction m with
  | nil => simp [lookupName, dictInsert, h, Ne.symm h]
  | cons p rest ih =>
    obtain ⟨k'', v'⟩ := p
    by_cases h2 : k'' = k
    · subst h2
      simp [lookupName, dictInsert, Ne.symm h]
    · by_cases h3 : k'' = k'
      · simp [lookupName, dictInsert, h2, h3, h]
      · simp [lookupName, dictInsert, h2, h3, ih]

/-- Name-injectivity of the loaded-tokenizer table over a selection: two
selected indices whose tokenizers share a display name are the same index.
This is the data-model assumption behind keying the result dict by name
(`AccountingResult.per_model` is a mapping from model name). -/
def NamesInjOn (indices : List ℕ) (toks : ℕ → Option Tokenizer) : Prop :=
  ∀ j k tj tk, j ∈ indices → k ∈ indices → toks j = some tj →
    toks k = some tk → tj.model_name = tk.model_name → j = k

theorem NamesInjOn.of_subset {l l' : List ℕ} {toks : ℕ → Option Tokenizer}
    (hsub : l' ⊆ l) (h : NamesInjOn l toks) : NamesInjOn l' toks :=
  fun j k tj tk hj hk htj htk hn => h j k tj tk (hsub hj) (hsub hk) htj htk hn

/-- Unfolding one selected index of the inner loop. -/
theorem innerLoop_cons (toks : ℕ → Option Tokenizer) (j : ℕ) (rest : List ℕ)
    (text : String) (m : List (String × TokCounts)) :
    innerLoop toks (j :: rest) text m =
      innerLoop toks rest text
        (match toks j with
          | none => m
          | some tk =>
            match tk.encode text with
            | some n => updModels m tk.model_name fun c => ⟨c.total_tokens + n, c.error_count⟩
            | none => updModels m tk.model_name fun c => ⟨c.total_tokens, c.error_count + 1⟩) := rfl

/-- The inner loop leaves a name untouched when no selected index carries a
tokenizer with that name. -/
theorem innerLoop_lookup_absent {indices : List ℕ} {toks : ℕ → Option Tokenizer}
    {name : String}
    (habs : ∀ j ∈ indices, ∀ tj, toks j = some tj → tj.model_name ≠ name)
    (text : String) (m : List (String × TokCounts)) :
    lookupName (innerLoop toks indices text m) name = lookupName m name := by
  induction indices generalizing m with
  | nil => simp [innerLoop]
  | cons j rest ih =>
    have hrest : ∀ j ∈ rest, ∀ tj, toks j = some tj → tj.model_name ≠ name :=
      fun j hj tj htj => habs j (List.mem_cons_of_mem _ hj) tj htj
    rw [innerLoop_cons]
    cases htj : toks j with
    | none => exact ih hrest _
    | some tj =>
      have hne : name ≠ tj.model_name :=
        fun h => habs j (List.mem_cons_self _ _) tj htj h.symm
      dsimp only
      cases henc : tj.encode text with
      | some n =>
        simp only [henc]
        rw [ih hrest, lookupName_updModels_ne _ _ hne]
      | none =>
        simp only [henc]
        rw [ih hrest, lookupName_updModels_ne _ _ hne]

/-- With no duplicate selection and name-injective tokenizers, one pass of
the inner loop acts on the counters of index `i`'s tokenizer exactly as
`modelStep`, for any starting dict. -/
theorem innerLoop_lookup_present {indices : List ℕ} {toks : ℕ → Option Tokenizer}
    {i : ℕ} {tk : Tokenizer} (hnd : indices.Nodup) (hi : i ∈ indices)
    (htk : toks i = some tk) (hinj : NamesInjOn indices toks)
    (text : String) (m : List (String × TokCounts)) :
    lookupName (innerLoop toks indices text m) tk.model_name =
      (lookupName m tk.model_name).map (modelStep tk.encode text) := by
  induction indices generalizing m with
  | nil => simp at hi
  | cons j rest ih =>
    have hndr : rest.Nodup := (List.nodup_cons.mp hnd).2
    have hinjr : NamesInjOn rest toks :=
      hinj.of_subset fun x hx => List.mem_cons_of_mem _ hx
    rw [innerLoop_cons]
    by_cases hji : j = i
    · subst hji
      have hjrest : j ∉ rest := (List.nodup_cons.mp hnd).1
      have habs : ∀ l ∈ rest, ∀ tl, toks l = some tl → tl.model_name ≠ tk.model_name := by
        intro l hl tl htl hn
        have := hinj l j tl tk (List.mem_cons_of_mem _ hl) (List.mem_cons_self _ _) htl htk hn
        exact hjrest (this ▸ hl)
      rw [htk]
      dsimp only
      cases henc : tk.encode text with
      | some n =>
        simp only [henc]
        rw [innerLoop_lookup_absent habs, lookupName_updModels_self]
        cases lookupName m tk.model_name <;> simp [modelStep, henc]
      | none =>
        simp only [henc]
        rw [innerLoop_lookup_absent habs, lookupName_updModels_self]
        cases lookupName m tk.model_name <;> simp [modelStep, henc]
    · have hir : i ∈ rest := by
        cases List.mem_cons.mp hi with
        | inl h => exact absurd h.symm hji
        | inr h => exact h
      cases htj : toks j with
      | none => exact ih hndr hir hinjr _
      | some tj =>
        have hne : tk.model_name ≠ tj.model_name := by
          intro h
          exact hji (hinj j i tj tk (List.mem_cons_self _ _)
            (List.mem_cons_of_mem _ hir) htj htk h.symm)
        dsimp only
        cases henc : tj.encode text with
        | some n =>
          simp only [henc]
          rw [ih hndr hir hinjr, lookupName_updModels_ne _ _ hne]
        | none =>
          simp only [henc]
          rw [ih hndr hir hinjr, lookupName_updModels_ne _ _ hne]

/-- Lookup of one model's counters through the whole sample loop: the
samples are folded by `modelStep` on that model's counters alone. -/
theorem outerFold_lookup {indices : List ℕ} {toks : ℕ → Option Tokenizer}
    {i : ℕ} {tk : Tokenizer} (hnd : indices.Nodup) (hi : i ∈ indices)
    (htk : toks i = some tk) (hinj : NamesInjOn indices toks)
    (texts : List String) (m : List (String × TokCounts)) :
    lookupName (texts.foldl (fun m text => innerLoop toks indices text m) m)
        tk.model_name =
      (lookupName m tk.model_name).map
        (fun c => texts.foldl (fun c text => modelStep tk.encode text c) c) := by
  induction texts generalizing m with
  | nil => simp
  | cons t ts ih =>
    rw [List.foldl_cons, ih, innerLoop_lookup_present hnd hi htk hinj]
    cases lookupName m tk.model_name <;> simp

/-- Invariant of the counter-initialisation fold: a name that is already
present with `{0, 0}`, or that some remaining index will insert, ends up
present with `{0, 0}`. -/
theorem initModels_go (toks : ℕ → Option Tokenizer) (name : String) :
    ∀ (indices : List ℕ) (m : List (String × TokCounts)),
    (lookupName m name = some ⟨0, 0⟩ ∨
      ∃ i ∈ indices, ∃ tk, toks i = some tk ∧ tk.model_name = name) →
    lookupName (indices.foldl
      (fun m i => match toks i with
        | some tk => dictInsert m tk.model_name ⟨0, 0⟩
        | none => m) m) name = some ⟨0, 0⟩ := by
  intro indices
  induction indices with
  | nil =>
    intro m hm
    rcases hm with hm | hm
    · simpa using hm
    · simp at hm
  | cons j rest ih =>
    intro m hm
    rw [List.foldl_cons]
    rcases hm with hm | hm
    · refine ih _ (Or.inl ?_)
      cases htj : toks j with
      | none => simpa using hm
      | some tj =>
        dsimp only
        by_cases hn : name = tj.model_name
        · rw [hn, lookupName_dictInsert_self]
        · rw [lookupName_dictInsert_ne _ _ hn]
          exact hm
    · obtain ⟨i, hi, tk, htk, hname⟩ := hm
      rcases List.mem_cons.mp hi with hji | hir
      · subst hji
        rw [htk]
        refine ih _ (Or.inl ?_)
        dsimp only
        rw [← hname]
        exact lookupName_dictInsert_self _ _ _
      · exact ih _ (Or.inr ⟨i, hir, tk, htk, hname⟩)

/-- After the initialisation loop, a selected loaded tokenizer's name is
present with counters `{0, 0}`. -/
theorem initModels_lookup {indices : List ℕ} {toks : ℕ → Option Tokenizer}
    {i : ℕ} {tk : Tokenizer} (hi : i ∈ indices) (htk : toks i = some tk) :
    lookupName (initModels indices toks) tk.model_name = some ⟨0, 0⟩ :=
  initModels_go toks tk.model_name indices []
    (Or.inr ⟨i, hi, tk, htk, rfl⟩)

/-- The fold of `modelStep` over samples, from arbitrary starting counters:
successful token counts add up, failures count up. -/
theorem foldl_modelStep (enc : String → Option ℕ) (texts : List String)
    (a b : ℕ) :
    texts.foldl (fun c text => modelStep enc text c) ⟨a, b⟩ =
      ⟨a + tokTotal enc texts, b + errTotal enc texts⟩ := by
  induction texts generalizing a b with
  | nil => simp [tokTotal, errTotal]
  | cons t ts ih =>
    rw [List.foldl_cons]
    cases henc : enc t with
    | some n =>
      have hstep : modelStep enc t ⟨a, b⟩ = ⟨a + n, b⟩ := by simp [modelStep, henc]
      rw [hstep, ih]
      simp [tokTotal, errTotal, henc, List.countP_cons]
      all_goals omega
    | none =>
      have hstep : modelStep enc t ⟨a, b⟩ = ⟨a, b + 1⟩ := by simp [modelStep, henc]
      rw [hstep, ih]
      simp [tokTotal, errTotal, henc, List.countP_cons]
      all_goals omega

/-- Master accounting lemma: for a non-empty corpus, with no duplicate
selection and name-injective tokenizers, `process_dataset` succeeds, its
byte and sample totals are the up-front ones, and index `i`'s tokenizer
ends with exactly the summed successful token counts and the failure
count. -/
theorem processDataset_lookup {texts : List String} {indices : List ℕ}
    {toks : ℕ → Option Tokenizer} {i : ℕ} {tk : Tokenizer}
    (hne : texts ≠ []) (hnd : indices.Nodup) (hi : i ∈ indices)
    (htk : toks i = some tk) (hinj : NamesInjOn indices toks) :
    ∃ r, processDataset texts indices toks = some r ∧
      r.total_bytes = (texts.map fun t => t.utf8ByteSize).sum ∧
      r.sample_count = texts.length ∧
      lookupName r.models tk.model_name =
        some ⟨tokTotal tk.encode texts, errTotal tk.encode texts⟩ := by
  have hproc : processDataset texts indices toks = some
      { total_bytes := (texts.map fun t => t.utf8ByteSize).sum
        sample_count := texts.length
        models := texts.foldl (fun m text => innerLoop toks indices text m)
          (initModels indices toks) } := by
    rw [processDataset, if_neg (by simpa using hne)]
  refine ⟨_, hproc, rfl, rfl, ?_⟩
  dsimp only
  rw [outerFold_lookup hnd hi htk hinj, initModels_lookup hi htk,
    Option.map_some']
  rw [foldl_modelStep]
  simp

theorem tokTotal_append (enc : String → Option ℕ) (t1 t2 : List String) :
    tokTotal enc (t1 ++ t2) = tokTotal enc t1 + tokTotal enc t2 := by
  simp [tokTotal, List.filterMap_append]

theorem errTotal_append (enc : String → Option ℕ) (t1 t2 : List String) :
    errTotal enc (t1 ++ t2) = errTotal enc t1 + errTotal enc t2 := by
  simp [errTotal, List.countP_append]

theorem errTotal_le_length (enc : String → Option ℕ) (texts : List String) :
    errTotal enc texts ≤ texts.length :=
  List.countP_le_length _

/-- Per model, every sample either contributed a successful count or an
error: successes plus errors cover the corpus exactly. -/
theorem countP_isSome_add_errTotal (enc : String → Option ℕ)
    (texts : List String) :
    (texts.countP fun t => (enc t).isSome) + errTotal enc texts =
      texts.length := by
  induction texts with
  | nil => simp [errTotal]
  | cons t ts ih =>
    cases henc : enc t <;>
      simp [errTotal, List.countP_cons, henc] at * <;> omega

/-- The load-phase keep condition of `load_tokenizers`: the index is in
range, the entry is neither the aggregate placeholder nor auth-required,
and `AutoTokenizer.from_pretrained` succeeds. -/
def keepIdx (models : List ModelOption)
    (tryLoad : ℕ → Option (String → Option ℕ)) (i : ℕ) : Bool :=
  match models[i]? with
  | some info => !info.is_all_option && !info.auth_required && (tryLoad i).isSome
  | none => false

theorem loadTokenizers_go (models : List ModelOption)
    (tryLoad : ℕ → Option (String → Option ℕ)) :
    ∀ (indices : List ℕ) (acc : List ℕ × List (ℕ × Tokenizer)),
    (indices.foldl
      (fun acc i =>
        match models[i]? with
        | none => acc
        | some info =>
          if info.is_all_option then acc
          else if info.auth_required then acc
          else
            match tryLoad i with
            | some enc => (acc.1 ++ [i], acc.2 ++ [(i, ⟨info.name, enc⟩)])
            | none => acc)
      acc).1 = acc.1 ++ indices.filter (keepIdx models tryLoad) := by
  intro indices
  induction indices with
  | nil => intro acc; simp
  | cons j rest ih =>
    intro acc
    rw [List.foldl_cons, ih, List.filter_cons]
    cases hj : models[j]? with
    | none => simp [keepIdx, hj]
    | some info =>
      by_cases hall : info.is_all_option
      · simp [keepIdx, hj, hall]
      · by_cases hauth : info.auth_required
        · simp [keepIdx, hj, hall, hauth]
        · cases htl : tryLoad j with
          | none => simp [keepIdx, hj, hall, hauth, htl]
          | some enc => simp [keepIdx, hj, hall, hauth, htl]

/-- `successful_models` is exactly the selection filtered by the keep
condition. -/
theorem loadTokenizers_fst (models : List ModelOption)
    (tryLoad : ℕ → Option (String → Option ℕ)) (indices : List ℕ) :
    (loadTokenizers models tryLoad indices).1 =
      indices.filter (keepIdx models tryLoad) := by
  rw [loadTokenizers, loadTokenizers_go]
  simp

/-- Round-trip error of scaling a count by `target/measured` and back: the
result never exceeds the original, and falls short of it by less than one
truncation step of each direction (`measured/target + 1`). -/
theorem scaleCount_roundtrip (n : ℕ) {M T2 : ℚ} (hM : 0 < M) (hT2 : 0 < T2) :
    scaleCount (scaleCount n M T2) T2 M ≤ n ∧
    (n : ℚ) - (scaleCount (scaleCount n M T2) T2 M : ℚ) < M / T2 + 1 := by
  have ha : 0 < T2 / M := div_pos hT2 hM
  have hb : 0 < M / T2 := div_pos hM hT2
  have hs0 : (0 : ℤ) ≤ ⌊(n : ℚ) * (T2 / M)⌋ :=
    Int.floor_nonneg.mpr (mul_nonneg (Nat.cast_nonneg n) ha.le)
  have hsc1 : ((scaleCount n M T2 : ℕ) : ℚ) = ((⌊(n : ℚ) * (T2 / M)⌋ : ℤ) : ℚ) := by
    rw [scaleCount]
    exact_mod_cast Int.toNat_of_nonneg hs0
  have h1 : ((scaleCount n M T2 : ℕ) : ℚ) ≤ (n : ℚ) * (T2 / M) := by
    rw [hsc1]
    exact Int.floor_le _
  have h1b : (0 : ℚ) ≤ ((scaleCount n M T2 : ℕ) : ℚ) := Nat.cast_nonneg _
  have hy_le : ((scaleCount n M T2 : ℕ) : ℚ) * (M / T2) ≤ (n : ℚ) := by
    calc ((scaleCount n M T2 : ℕ) : ℚ) * (M / T2)
        ≤ ((n : ℚ) * (T2 / M)) * (M / T2) := mul_le_mul_of_nonneg_right h1 hb.le
      _ = n := by field_simp
  have hr0 : (0 : ℤ) ≤ ⌊((scaleCount n M T2 : ℕ) : ℚ) * (M / T2)⌋ :=
    Int.floor_nonneg.mpr (mul_nonneg h1b hb.le)
  have hrc : ((scaleCount (scaleCount n M T2) T2 M : ℕ) : ℚ) =
      ((⌊((scaleCount n M T2 : ℕ) : ℚ) * (M / T2)⌋ : ℤ) : ℚ) := by
    rw [scaleCount]
    exact_mod_cast Int.toNat_of_nonneg hr0
  constructor
  · have hle : ((scaleCount (scaleCount n M T2) T2 M : ℕ) : ℚ) ≤ (n : ℚ) := by
      rw [hrc]
      exact le_trans (Int.floor_le _) hy_le
    exact_mod_cast hle
  · have h2 : (n : ℚ) * (T2 / M) - 1 < ((scaleCount n M T2 : ℕ) : ℚ) := by
      rw [hsc1]
      exact Int.sub_one_lt_floor _
    have h3 : (n : ℚ) - M / T2 < ((scaleCount n M T2 : ℕ) : ℚ) * (M / T2) := by
      have hmul := mul_lt_mul_of_pos_right h2 hb
      calc (n : ℚ) - M / T2
          = ((n : ℚ) * (T2 / M) - 1) * (M / T2) := by
            field_simp
        _ < _ := hmul
    have h4 : ((scaleCount n M T2 : ℕ) : ℚ) * (M / T2) - 1 <
        ((scaleCount (scaleCount n M T2) T2 M : ℕ) : ℚ) := by
      rw [hrc]
      exact Int.sub_one_lt_floor _
    linarith

/-- The human time format as the amended claim C8 describes it, computed
from the global decomposition: whole days `⌊q/86400⌋`, whole hours and
minutes as the next positional digits, and the residual seconds
`q - 60*⌊q/60⌋`; days, hours and minutes are shown when positive, the
whole seconds are shown when the residual is positive or nothing else is
shown, and non-positive input renders `"0秒"`. -/
def formatTimeSpec (q : ℚ) : String :=
  if q ≤ 0 then "0秒"
  else
    let d : ℤ := ⌊q / 86400⌋
    let h : ℤ := ⌊q / 3600⌋ - 24 * d
    let m : ℤ := ⌊q / 60⌋ - 60 * ⌊q / 3600⌋
    let s : ℚ := q - 60 * ⌊q / 60⌋
    let parts :=
      (if 0 < d then [toString d ++ "天"] else []) ++
      (if 0 < h then [toString h ++ "小时"] else []) ++
      (if 0 < m then [toString m ++ "分钟"] else [])
    let parts := if 0 < s ∨ parts = [] then parts ++ [toString ⌊s⌋ ++ "秒"] else parts
    String.intercalate " " parts

/-- The source `format_time` agrees everywhere with the positional-digit
description `formatTimeSpec`. -/
theorem formatTime_eq_spec (q : ℚ) : formatTime q = formatTimeSpec q := by
  by_cases hq : q ≤ 0
  · rw [formatTime, formatTimeSpec, if_pos hq, if_pos hq]
  · rw [formatTime, formatTimeSpec, if_neg hq, if_neg hq]
    have e1 : ⌊(q - 86400 * (⌊q / 86400⌋ : ℚ)) / 3600⌋ =
        ⌊q / 3600⌋ - 24 * ⌊q / 86400⌋ := by
      have harg : (q - 86400 * (⌊q / 86400⌋ : ℚ)) / 3600 =
          q / 3600 - ((24 * ⌊q / 86400⌋ : ℤ) : ℚ) := by
        push_cast
        ring
      rw [harg, Int.floor_sub_int]
    have e2arg : q - 86400 * (⌊q / 86400⌋ : ℚ) -
        3600 * ((⌊q / 3600⌋ - 24 * ⌊q / 86400⌋ : ℤ) : ℚ) =
        q - 3600 * (⌊q / 3600⌋ : ℚ) := by
      push_cast
      ring
    have e2 : ⌊(q - 3600 * (⌊q / 3600⌋ : ℚ)) / 60⌋ =
        ⌊q / 60⌋ - 60 * ⌊q / 3600⌋ := by
      have harg : (q - 3600 * (⌊q / 3600⌋ : ℚ)) / 60 =
          q / 60 - ((60 * ⌊q / 3600⌋ : ℤ) : ℚ) := by
        push_cast
        ring
      rw [harg, Int.floor_sub_int]
    have e3arg : q - 3600 * (⌊q / 3600⌋ : ℚ) -
        60 * ((⌊q / 60⌋ - 60 * ⌊q / 3600⌋ : ℤ) : ℚ) =
        q - 60 * (⌊q / 60⌋ : ℚ) := by
      push_cast
      ring
    dsimp only
    rw [e1, e2arg, e2, e3arg]

/-- The per-line sample of the amended claim C4: a blank line gives no
sample; a line whose parse failed gives its stripped text; a parsed record
gives its non-empty extracted text, else its `str(obj)` rendering.  (The
extraction-raises case is excluded by the amended claim; the value chosen
for it here is immaterial.) -/
def lineSampleSpec (l : String × Option Json) : Option String :=
  if (pyStrip l.1).isEmpty then none
  else
    some
      (match l.2 with
        | none => pyStrip l.1
        | some obj =>
          match extractTextFromJson obj with
          | .ok (some s) => if s.isEmpty then pyStr obj else s
          | _ => pyStr obj)

/-- On a file none of whose parsed records makes extraction raise, the
JSONL loader produces exactly the per-line samples, in order. -/
theorem jsonlTexts_ok :
    ∀ (lines : List (String × Option Json)),
    (∀ l ∈ lines, ∀ obj, l.2 = some obj → extractTextFromJson obj ≠ .error ()) →
    jsonlTexts lines = .ok (lines.filterMap lineSampleSpec) := by
  intro lines
  induction lines with
  | nil => intro _; rfl
  | cons l rest ih =>
    intro hok
    obtain ⟨raw, parsed⟩ := l
    have hrest : ∀ l ∈ rest, ∀ obj, l.2 = some obj →
        extractTextFromJson obj ≠ .error () :=
      fun l hl => hok l (List.mem_cons_of_mem _ hl)
    by_cases hline : (pyStrip raw).isEmpty
    · simp only [jsonlTexts, hline, if_true, List.filterMap_cons, lineSampleSpec,
        ih hrest]
    · cases hp : parsed with
      | none =>
        simp only [jsonlTexts, hline, if_false, Bool.false_eq_true, ih hrest,
          List.filterMap_cons, lineSampleSpec, hp, Except.map]
      | some obj =>
        have hobj : extractTextFromJson obj ≠ .error () :=
          hok (raw, parsed) (List.mem_cons_self _ _) obj (by rw [hp])
        cases hx : extractTextFromJson obj with
        | error e => cases e; exact absurd hx hobj
        | ok ext =>
          simp only [jsonlTexts, hline, if_false, Bool.false_eq_true, ih hrest,
            List.filterMap_cons, lineSampleSpec, hp, hx, Except.map]
          cases ext with
          | none => rfl
          | some s => by_cases hs : s.isEmpty <;> simp [hs]

/-- A line yields a sample exactly when its stripped text is non-empty. -/
theorem lineSampleSpec_isSome (l : String × Option Json) :
    (lineSampleSpec l).isSome = !(pyStrip l.1).isEmpty := by
  rw [lineSampleSpec]
  by_cases h : (pyStrip l.1).isEmpty <;> simp [h]

/-- Sample count equals the number of non-blank lines. -/
theorem lineSampleSpec_length (lines : List (String × Option Json)) :
    (lines.filterMap lineSampleSpec).length =
      lines.countP fun l => !(pyStrip l.1).isEmpty := by
  induction lines with
  | nil => rfl
  | cons l rest ih =>
    rw [List.filterMap_cons, List.countP_cons, ← lineSampleSpec_isSome l]
    cases hs : lineSampleSpec l <;> simp [hs, ih]

/-- Claim C10: given an empty (falsy) sample list, `process_dataset`
returns no result at all (`None`), not a zeroed result. -/
theorem claimC10_empty_none (indices : List ℕ) (toks : ℕ → Option Tokenizer) :
    processDataset [] indices toks = none := rfl

/-- Claim C5: for every sample list and every set of loaded tokenizers,
the accounting result's `total_bytes` is the sum of the UTF-8 byte lengths
of the samples and `sample_count` is the number of samples, and both are
identical under any other tokenizer set or selection (so no tokenizer
success or failure can change them). -/
theorem claimC5_totals_invariant (texts : List String) (indices : List ℕ)
    (toks : ℕ → Option Tokenizer) (hne : texts ≠ []) :
    ∃ r, processDataset texts indices toks = some r ∧
      r.total_bytes = (texts.map fun t => t.utf8ByteSize).sum ∧
      r.sample_count = texts.length ∧
      ∀ (indices' : List ℕ) (toks' : ℕ → Option Tokenizer),
        ∃ r', processDataset texts indices' toks' = some r' ∧
          r'.total_bytes = r.total_bytes ∧ r'.sample_count = r.sample_count := by
  have hmk : ∀ (ind : List ℕ) (tks : ℕ → Option Tokenizer),
      processDataset texts ind tks = some
        { total_bytes := (texts.map fun t => t.utf8ByteSize).sum
          sample_count := texts.length
          models := texts.foldl (fun m text => innerLoop tks ind text m)
            (initModels ind tks) } := by
    intro ind tks
    rw [processDataset, if_neg (by simpa using hne)]
  exact ⟨_, hmk indices toks, rfl, rfl,
    fun ind' tks' => ⟨_, hmk ind' tks', rfl, rfl⟩⟩

/-- Witness for C5 at a concrete two-sample corpus with one never-loading
selection: the totals evaluate to 4 bytes and 2 samples. -/
theorem claimC5_totals_invariant_witness :
    (["ab", "cd"] : List String) ≠ [] ∧
    ∃ r, processDataset ["ab", "cd"] [0] (fun _ => none) = some r ∧
      r.total_bytes = 4 ∧ r.sample_count = 2 := by
  refine ⟨by decide, ?_⟩
  obtain ⟨r, hr, hb, hs, -⟩ :=
    claimC5_totals_invariant ["ab", "cd"] [0] (fun _ => none) (by decide)
  exact ⟨r, hr, by rw [hb]; rfl, by rw [hs]; rfl⟩

/-- Claim C2 (spec-modelled Corpus Scaler): with positive sizes, `scale`
multiplies every count by `target/measured` truncated; non-positive sizes
give `InvalidSize`; and scaling there and back returns each count `n` as a
value that never exceeds `n` and falls short of it by less than
`measured/target + 1` — equality up to the integer truncations. -/
theorem claimC2_scale_roundtrip (table : List (String × ℕ)) (M T2 : ℚ)
    (hM : 0 < M) (hT2 : 0 < T2) :
    scaleTokenTable table M T2 =
      .ok (table.map fun p => (p.1, scaleCount p.2 M T2)) ∧
    (∀ M' T2' : ℚ, T2' ≤ 0 ∨ M' ≤ 0 →
      scaleTokenTable table M' T2' = .error .invalidSize) ∧
    ∃ t1 t0, scaleTokenTable table M T2 = .ok t1 ∧
      scaleTokenTable t1 T2 M = .ok t0 ∧
      ∀ name n, (name, n) ∈ table →
        (name, scaleCount (scaleCount n M T2) T2 M) ∈ t0 ∧
        scaleCount (scaleCount n M T2) T2 M ≤ n ∧
        (n : ℚ) - (scaleCount (scaleCount n M T2) T2 M : ℚ) < M / T2 + 1 := by
  have hok : ∀ (t : List (String × ℕ)) (A B : ℚ), 0 < A → 0 < B →
      scaleTokenTable t A B = .ok (t.map fun p => (p.1, scaleCount p.2 A B)) := by
    intro t A B hA hB
    rw [scaleTokenTable, if_neg]
    push_neg
    exact ⟨hB, hA⟩
  refine ⟨hok table M T2 hM hT2, ?_, ?_⟩
  · intro M' T2' h
    rw [scaleTokenTable, if_pos h]
  · refine ⟨_, _, hok table M T2 hM hT2, hok _ T2 M hT2 hM, ?_⟩
    intro name n hmem
    refine ⟨?_, (scaleCount_roundtrip n hM hT2).1, (scaleCount_roundtrip n hM hT2).2⟩
    have h1 : ((name, n).1, scaleCount (name, n).2 M T2) ∈
        table.map fun p => (p.1, scaleCount p.2 M T2) :=
      List.mem_map_of_mem _ hmem
    have h2 := List.mem_map_of_mem (fun p : String × ℕ =>
      (p.1, scaleCount p.2 T2 M)) h1
    simpa using h2

/-- Witness for C2 at table `{A: 10}`, measured 2, target 3: scaling gives
15 and scaling back returns 10 exactly. -/
theorem claimC2_scale_roundtrip_witness :
    (0 : ℚ) < 2 ∧ (0 : ℚ) < 3 ∧
    scaleTokenTable [("A", 10)] 2 3 = .ok [("A", 15)] ∧
    scaleTokenTable [("A", 15)] 3 2 = .ok [("A", 10)] := by
  refine ⟨by norm_num, by norm_num, ?_, ?_⟩
  · have h := (claimC2_scale_roundtrip [("A", 10)] 2 3 (by norm_num) (by norm_num)).1
    rw [h]
    norm_num [scaleCount]
    decide
  · have h := (claimC2_scale_roundtrip [("A", 15)] 3 2 (by norm_num) (by norm_num)).1
    rw [h]
    norm_num [scaleCount]
    decide

/-- Counterexample to C8 as stated: at 60.5 seconds the seconds unit has
whole value 0, yet `format_time` renders it ("1分钟 0秒"), because the code
tests the residual `0.5 > 0`, not the whole value — the claim's "omits
every unit whose whole value is zero" demands "1分钟". -/
theorem claimC8_counterexample :
    formatTime (121 / 2 : ℚ) = "1分钟 0秒" ∧ "1分钟 0秒" ≠ "1分钟" := by
  constructor
  · unfold formatTime
    norm_num
    rfl
  · decide

/-- Claim C8 as amended: for every non-negative number of seconds,
`format_time` renders exactly the positional decomposition of
`formatTimeSpec`: whole days, hours, minutes in descending order, each
omitted when zero, the whole seconds shown whenever the residual seconds
are positive (even when their whole part is 0) or when nothing else is
shown, and `"0秒"` for zero input. -/
theorem claimC8_format_decomposition (q : ℚ) (hq : 0 ≤ q) :
    formatTime q = formatTimeSpec q :=
  formatTime_eq_spec q

/-- Witness for C8 at 60.5 seconds. -/
theorem claimC8_format_decomposition_witness :
    (0 : ℚ) ≤ 121 / 2 ∧ formatTime (121 / 2 : ℚ) = formatTimeSpec (121 / 2 : ℚ) ∧
    formatTimeSpec (121 / 2 : ℚ) = "1分钟 0秒" := by
  refine ⟨by norm_num, claimC8_format_decomposition (121 / 2) (by norm_num), ?_⟩
  unfold formatTimeSpec
  norm_num
  rfl

/-- Counterexample to C1 as stated: with throughput 100, world_size 4,
token_count 120000, epochs 1, `estimate_training_time` divides by the
additional single-node efficiency factor 0.85 and returns 6000/17 ≈ 352.94
seconds, not 300, and the formatted result is "5分钟 52秒", not "5分钟". -/
theorem claimC1_counterexample :
    estimateTrainingTime [⟨"MA", false, [("full", ⟨100, 4⟩)]⟩]
        120000 "MA" "full" 1 = .ok (6000 / 17, 4, 100) ∧
    (6000 / 17 : ℚ) ≠ 300 ∧
    formatTime (6000 / 17 : ℚ) = "5分钟 52秒" ∧
    ("5分钟 52秒" : String) ≠ "5分钟" := by
  refine ⟨?_, by norm_num, ?_, by decide⟩
  · unfold estimateTrainingTime
    norm_num [List.find?, List.lookup]
  · unfold formatTime
    norm_num
    rfl

/-- Claim C1 as amended: for every model whose descriptor has a
throughput-table entry for the fine-tune method with positive throughput,
`estimate_training_time` returns
`token_count*epochs / (throughput * world_size * efficiency)` seconds with
the returned worker count and throughput, where the efficiency discount is
0.95 for a single worker, 0.85 for 2–8 workers, and 0.65 above 8. -/
theorem claimC1_efficiency_formula (cfgs : List EstModelConfig)
    (token_count epochs : ℚ) (model_name fine_tune_method : String)
    (mc : EstModelConfig) (m : MethodConfig)
    (hfind : cfgs.find? (fun c => c.name == model_name && !c.is_all_option) = some mc)
    (hm : mc.methods.lookup fine_tune_method = some m)
    (htp : 0 < m.throughput) :
    ∃ eff : ℚ,
      (m.world_size = 1 → eff = 95 / 100) ∧
      (2 ≤ m.world_size ∧ m.world_size ≤ 8 → eff = 85 / 100) ∧
      (8 < m.world_size → eff = 65 / 100) ∧
      estimateTrainingTime cfgs token_count model_name fine_tune_method epochs =
        .ok (token_count * epochs / (m.throughput * m.world_size * eff),
          m.world_size, m.throughput) := by
  refine ⟨if m.world_size = 1 then 95 / 100
    else if m.world_size ≤ 8 then 85 / 100 else 65 / 100, ?_, ?_, ?_, ?_⟩
  · intro h
    rw [if_pos h]
  · rintro ⟨h2, h8⟩
    rw [if_neg (by omega), if_pos h8]
  · intro h8
    rw [if_neg (by omega), if_neg (by omega)]
  · simp only [estimateTrainingTime, hfind, hm, if_neg (not_le.mpr htp)]

/-- Witness for the amended C1 at the concrete inputs of the testable
property: the estimate is 6000/17 seconds at throughput 100 and
world_size 4. -/
theorem claimC1_efficiency_formula_witness :
    List.find? (fun c => c.name == "MA" && !c.is_all_option)
        [(⟨"MA", false, [("full", ⟨100, 4⟩)]⟩ : EstModelConfig)] =
      some ⟨"MA", false, [("full", ⟨100, 4⟩)]⟩ ∧
    ([("full", (⟨100, 4⟩ : MethodConfig))].lookup "full") = some ⟨100, 4⟩ ∧
    (0 : ℚ) < 100 ∧
    estimateTrainingTime [⟨"MA", false, [("full", ⟨100, 4⟩)]⟩]
      120000 "MA" "full" 1 = .ok (6000 / 17, 4, 100) := by
  refine ⟨rfl, rfl, by norm_num, ?_⟩
  obtain ⟨eff, h1, h85, h3, h4⟩ :=
    claimC1_efficiency_formula [⟨"MA", false, [("full", ⟨100, 4⟩)]⟩]
      120000 1 "MA" "full" ⟨"MA", false, [("full", ⟨100, 4⟩)]⟩ ⟨100, 4⟩
      rfl rfl (by norm_num)
  rw [h85 (by constructor <;> norm_num)] at h4
  rw [h4]
  norm_num

/-- Claim C3: a record carrying all three of "instruction", "input" and
"output" (at least one truthy) extracts to the newline-joined non-empty
values among the three, in that order — whatever other fields (such as
"text") the record carries — and never to the "text" field's value when
that value differs from the concatenation. -/
theorem claimC3_triple_precedence (fs : List (String × Json)) (vi vin vo : Json)
    (hvi : jGet fs "instruction" = some vi)
    (hvin : jGet fs "input" = some vin)
    (hvo : jGet fs "output" = some vo)
    (hne : truthy vi ∨ truthy vin ∨ truthy vo) :
    extractTextFromJson (.obj fs) =
      .ok (some (String.intercalate "\n"
        ((if truthy vi then [pyStr vi] else []) ++
         (if truthy vin then [pyStr vin] else []) ++
         (if truthy vo then [pyStr vo] else [])))) ∧
    ∀ t, jGet fs "text" = some (.str t) →
      t ≠ String.intercalate "\n"
        ((if truthy vi then [pyStr vi] else []) ++
         (if truthy vin then [pyStr vin] else []) ++
         (if truthy vo then [pyStr vo] else [])) →
      extractTextFromJson (.obj fs) ≠ .ok (some t) := by
  have htp : tripleParts fs =
      (if truthy vi then [pyStr vi] else []) ++
      (if truthy vin then [pyStr vin] else []) ++
      (if truthy vo then [pyStr vo] else []) := by
    by_cases h1 : truthy vi <;> by_cases h2 : truthy vin <;>
      by_cases h3 : truthy vo <;>
      simp [tripleParts, hvi, hvin, hvo, h1, h2, h3]
  have hpe : tripleParts fs ≠ [] := by
    rw [htp]
    rcases hne with h | h | h <;> simp [h]
  have hmain : extractTextFromJson (.obj fs) =
      .ok (some (String.intercalate "\n"
        ((if truthy vi then [pyStr vi] else []) ++
         (if truthy vin then [pyStr vin] else []) ++
         (if truthy vo then [pyStr vo] else [])))) := by
    rcases hx : tripleParts fs with - | ⟨p, ps⟩
    · exact absurd hx hpe
    · rw [← htp, hx]
      simp [extractTextFromJson, hvi, hvin, hvo, hx]
  refine ⟨hmain, ?_⟩
  intro t _ hneq heq
  rw [hmain] at heq
  exact hneq (Option.some.inj (Except.ok.inj heq)).symm

/-- Witness for C3: a concrete record with all three fields (input empty)
and a competing "text" field extracts to "Say hi\nhi", not to "ignored". -/
theorem claimC3_triple_precedence_witness :
    jGet [("text", .str "ignored"), ("instruction", .str "Say hi"),
        ("input", .str ""), ("output", .str "hi")] "instruction" =
      some (.str "Say hi") ∧
    extractTextFromJson (.obj [("text", .str "ignored"),
        ("instruction", .str "Say hi"), ("input", .str ""),
        ("output", .str "hi")]) = .ok (some "Say hi\nhi") ∧
    extractTextFromJson (.obj [("text", .str "ignored"),
        ("instruction", .str "Say hi"), ("input", .str ""),
        ("output", .str "hi")]) ≠ .ok (some "ignored") := by
  have h := claimC3_triple_precedence
    [("text", .str "ignored"), ("instruction", .str "Say hi"),
     ("input", .str ""), ("output", .str "hi")]
    (.str "Say hi") (.str "") (.str "hi") rfl rfl rfl (Or.inl (by decide))
  refine ⟨rfl, ?_, ?_⟩
  · rw [h.1]
    rfl
  · exact h.2 "ignored" rfl (by decide)

/-- Counterexample to C4 as stated: the well-formed JSONL line
`["a", 1]` parses, but extraction reaches `" ".join(["a", 1])`, which
raises `TypeError`; the per-line handler catches only `JSONDecodeError`,
so the exception escapes and the loader returns `None` for the whole
file — the file has one non-empty line and yields no samples at all. -/
theorem claimC4_counterexample :
    loadLocalDatasetJsonl [("[\x22a\x22, 1]", some (.arr [.str "a", .num 1]))] =
      none ∧
    ([("[\x22a\x22, 1]", some (Json.arr [.str "a", .num 1]))].countP
      fun l => !(pyStrip l.1).isEmpty) = 1 ∧
    loadLocalDatasetJsonl [(" junk", none)] = some ["junk"] ∧
    (" junk" : String) ≠ "junk" ∧
    loadLocalDatasetJsonl [(" ", none)] = some [] ∧
    (" " : String) ≠ "" := by
  have hx : extractTextFromJson (.arr [.str "a", .num 1]) = .error () := by
    simp [extractTextFromJson, joinStrings, Except.map]
  have hline : ((pyStrip "[\x22a\x22, 1]").isEmpty) = false := by decide
  refine ⟨?_, by decide, by decide, by decide, by decide, by decide⟩
  simp [loadLocalDatasetJsonl, jsonlTexts, hline, hx]

/-- Claim C4 as amended: for every line-delimited file none of whose
parsed records makes extraction raise, the loader keeps exactly one sample
per non-blank line, in order — a line that fails structural parsing is kept
as its stripped text, a parsed record yields its extracted text (or its
`str(obj)` rendering when extraction yields nothing) — and the sample
count equals the number of non-blank lines. -/
theorem claimC4_per_line (lines : List (String × Option Json))
    (hok : ∀ l ∈ lines, ∀ obj, l.2 = some obj →
      extractTextFromJson obj ≠ .error ()) :
    ∃ texts, loadLocalDatasetJsonl lines = some texts ∧
      texts = lines.filterMap lineSampleSpec ∧
      texts.length = lines.countP fun l => !(pyStrip l.1).isEmpty := by
  refine ⟨_, ?_, rfl, lineSampleSpec_length lines⟩
  rw [loadLocalDatasetJsonl, jsonlTexts_ok lines hok]

/-- Witness for the amended C4: a blank line, an unparseable line, a text
record, and a bare-string record `""` (whose extraction yields nothing, so
`str(obj)` — the empty string — is kept) give exactly the samples
`["junk", "T", ""]`. -/
theorem claimC4_per_line_witness :
    (∀ l ∈ ([(" ", none), ("junk", none),
        ("\x7b\x22text\x22: \x22T\x22\x7d", some (.obj [("text", .str "T")])),
        ("\x22\x22", some (.str ""))] :
        List (String × Option Json)), ∀ obj, l.2 = some obj →
        extractTextFromJson obj ≠ .error ()) ∧
    ∃ texts, loadLocalDatasetJsonl [(" ", none), ("junk", none),
        ("\x7b\x22text\x22: \x22T\x22\x7d", some (.obj [("text", .str "T")])),
        ("\x22\x22", some (.str ""))] =
        some texts ∧
      texts = ["junk", "T", ""] ∧ texts.length = 3 := by
  have hext : extractTextFromJson (.obj [("text", .str "T")]) = .ok (some "T") := by
    simp +decide [extractTextFromJson, extractFromDict, priorityScan,
      textFieldNames, jGet, truthy]
  have hstr : extractTextFromJson (.str "") = .ok none := by
    simp +decide [extractTextFromJson]
  have hok : ∀ l ∈ ([(" ", none), ("junk", none),
      ("\x7b\x22text\x22: \x22T\x22\x7d", some (.obj [("text", .str "T")])),
      ("\x22\x22", some (.str ""))] :
      List (String × Option Json)), ∀ obj, l.2 = some obj →
      extractTextFromJson obj ≠ .error () := by
    intro l hl obj hobj
    simp only [List.mem_cons, List.not_mem_nil, or_false] at hl
    rcases hl with rfl | rfl | rfl | rfl
    · simp at hobj
    · simp at hobj
    · have : Json.obj [("text", .str "T")] = obj := Option.some.inj hobj
      rw [← this, hext]
      simp
    · have : Json.str "" = obj := Option.some.inj hobj
      rw [← this, hstr]
      simp
  obtain ⟨texts, hload, htexts, hlen⟩ := claimC4_per_line _ hok
  have h1 : ((pyStrip " ").isEmpty) = true := by decide
  have h2 : pyStrip "junk" = "junk" := by decide
  have h2e : ((pyStrip "junk").isEmpty) = false := by decide
  have h3e : ((pyStrip "\x7b\x22text\x22: \x22T\x22\x7d").isEmpty) = false := by decide
  have h4e : ((pyStrip "\x22\x22").isEmpty) = false := by decide
  refine ⟨hok, texts, hload, ?_, ?_⟩
  · rw [htexts]
    simp [List.filterMap_cons, lineSampleSpec, h1, h2, h2e, h3e, h4e, hext, hstr]
    decide
  · rw [hlen]
    decide

/-- Claim C6: during accounting every success adds the token count and
every failure increments only that tokenizer's error count; a tokenizer
that fails on every sample ends with `error_count = sample_count` and
`total_tokens = 0`, and every other selected tokenizer's counters are
exactly what they would be with the failing tokenizer removed from the
selection. -/
theorem claimC6_failure_isolation (texts : List String) (indices : List ℕ)
    (toks : ℕ → Option Tokenizer) (i : ℕ) (tk : Tokenizer)
    (hne : texts ≠ []) (hnd : indices.Nodup) (hi : i ∈ indices)
    (htk : toks i = some tk) (hinj : NamesInjOn indices toks)
    (hfail : ∀ t ∈ texts, tk.encode t = none) :
    ∃ r r', processDataset texts indices toks = some r ∧
      processDataset texts (indices.erase i) toks = some r' ∧
      lookupName r.models tk.model_name = some ⟨0, texts.length⟩ ∧
      ∀ j tkj, j ∈ indices → j ≠ i → toks j = some tkj →
        lookupName r.models tkj.model_name =
          some ⟨tokTotal tkj.encode texts, errTotal tkj.encode texts⟩ ∧
        lookupName r'.models tkj.model_name =
          some ⟨tokTotal tkj.encode texts, errTotal tkj.encode texts⟩ := by
  obtain ⟨r, hr, -, -, hlook⟩ := processDataset_lookup hne hnd hi htk hinj
  have htok0 : tokTotal tk.encode texts = 0 := by
    simp [tokTotal, List.filterMap_eq_nil_iff.mpr hfail]
  have herrn : errTotal tk.encode texts = texts.length := by
    rw [errTotal]
    refine List.countP_eq_length.mpr ?_
    intro t ht
    simp [hfail t ht]
  obtain ⟨r', hr'⟩ : ∃ r', processDataset texts (indices.erase i) toks = some r' :=
    ⟨_, by rw [processDataset, if_neg (by simpa using hne)]⟩
  refine ⟨r, r', hr, hr', by rw [hlook, htok0, herrn], ?_⟩
  intro j tkj hj hji htkj
  constructor
  · obtain ⟨r2, hr2, -, -, hlook2⟩ := processDataset_lookup hne hnd hj htkj hinj
    rw [hr] at hr2
    rw [← Option.some.inj hr2] at hlook2
    exact hlook2
  · have hnd' : (indices.erase i).Nodup := hnd.erase _
    have hj' : j ∈ indices.erase i := (List.mem_erase_of_ne hji).mpr hj
    have hinj' : NamesInjOn (indices.erase i) toks :=
      hinj.of_subset fun x hx => List.mem_of_mem_erase hx
    obtain ⟨r3, hr3, -, -, hlook3⟩ := processDataset_lookup hne hnd' hj' htkj hinj'
    rw [hr'] at hr3
    rw [← Option.some.inj hr3] at hlook3
    exact hlook3

/-- The tokenizer table of the C6 witness: index 0 always encodes two
tokens, index 1 always raises. -/
def toksC6 : ℕ → Option Tokenizer := fun i =>
  if i = 0 then some ⟨"good", fun _ => some 2⟩
  else if i = 1 then some ⟨"bad", fun _ => none⟩
  else none

/-- Witness for C6: over two samples, the always-failing tokenizer ends
with `{0, 2}` and the other one with `{4, 0}`, with or without the failing
one selected. -/
theorem claimC6_failure_isolation_witness :
    (["a", "b"] : List String) ≠ [] ∧ ([0, 1] : List ℕ).Nodup ∧
    toksC6 1 = some ⟨"bad", fun _ => none⟩ ∧
    ∃ r r', processDataset ["a", "b"] [0, 1] toksC6 = some r ∧
      processDataset ["a", "b"] (([0, 1] : List ℕ).erase 1) toksC6 = some r' ∧
      lookupName r.models "bad" = some ⟨0, 2⟩ ∧
      lookupName r.models "good" = some ⟨4, 0⟩ ∧
      lookupName r'.models "good" = some ⟨4, 0⟩ := by
  have hinj : NamesInjOn [0, 1] toksC6 := by
    intro j k tj tk hj hk htj htk hn
    simp only [List.mem_cons, List.not_mem_nil, or_false] at hj hk
    rcases hj with rfl | rfl <;> rcases hk with rfl | rfl <;>
      first
        | rfl
        | (rw [show toksC6 0 = some ⟨"good", fun _ => some 2⟩ from rfl] at *
           rw [show toksC6 1 = some ⟨"bad", fun _ => none⟩ from rfl] at *
           rw [← Option.some.inj htj] at hn
           rw [← Option.some.inj htk] at hn
           simp at hn)
  obtain ⟨r, r', hr, hr', hbad, hrest⟩ :=
    claimC6_failure_isolation ["a", "b"] [0, 1] toksC6 1 ⟨"bad", fun _ => none⟩
      (by decide) (by decide) (by decide) rfl hinj (fun t _ => rfl)
  obtain ⟨hg, hg'⟩ := hrest 0 ⟨"good", fun _ => some 2⟩ (by decide) (by decide) rfl
  exact ⟨by decide, by decide, rfl, r, r', hr, hr', hbad, hg, hg'⟩

/-- Claim C9: after accounting, each model's successful samples plus its
error count cover the corpus exactly, the error count never exceeds the
sample count, and both counters are monotone in corpus prefixes. -/
theorem claimC9_counter_invariants (texts : List String) (indices : List ℕ)
    (toks : ℕ → Option Tokenizer) (i : ℕ) (tk : Tokenizer)
    (hne : texts ≠ []) (hnd : indices.Nodup) (hi : i ∈ indices)
    (htk : toks i = some tk) (hinj : NamesInjOn indices toks) :
    ∃ r c, processDataset texts indices toks = some r ∧
      lookupName r.models tk.model_name = some c ∧
      (texts.countP fun t => (tk.encode t).isSome) + c.error_count =
        texts.length ∧
      c.error_count ≤ texts.length ∧
      ∀ t1 t2, texts = t1 ++ t2 → t1 ≠ [] →
        ∃ r1 c1, processDataset t1 indices toks = some r1 ∧
          lookupName r1.models tk.model_name = some c1 ∧
          c1.total_tokens ≤ c.total_tokens ∧
          c1.error_count ≤ c.error_count := by
  obtain ⟨r, hr, -, -, hlook⟩ := processDataset_lookup hne hnd hi htk hinj
  refine ⟨r, _, hr, hlook, countP_isSome_add_errTotal tk.encode texts,
    errTotal_le_length tk.encode texts, ?_⟩
  intro t1 t2 hsplit hne1
  obtain ⟨r1, hr1, -, -, hlook1⟩ := processDataset_lookup hne1 hnd hi htk hinj
  refine ⟨r1, _, hr1, hlook1, ?_, ?_⟩
  · subst hsplit
    rw [tokTotal_append]
    exact Nat.le_add_right _ _
  · subst hsplit
    rw [errTotal_append]
    exact Nat.le_add_right _ _

/-- The tokenizer table of the C9 witness: index 0 encodes three tokens for
the sample "a" and raises otherwise. -/
def toksC9 : ℕ → Option Tokenizer := fun i =>
  if i = 0 then some ⟨"mixed", fun t => if t = "a" then some 3 else none⟩
  else none

/-- Witness for C9: over samples `["a", "x"]`, one success and one error
give `{3, 1}`, with `1 + 1 = 2` and prefix `["a"]` giving `{3, 0} ≤ {3, 1}`. -/
theorem claimC9_counter_invariants_witness :
    (["a", "x"] : List String) ≠ [] ∧ ([0] : List ℕ).Nodup ∧ (0 : ℕ) ∈ [0] ∧
    ∃ r c, processDataset ["a", "x"] [0] toksC9 = some r ∧
      lookupName r.models "mixed" = some c ∧
      (List.countP (fun t => ((fun t => if t = "a" then some 3 else none) t).isSome)
        ["a", "x"]) + c.error_count = 2 ∧
      c.error_count ≤ 2 := by
  have hinj : NamesInjOn [0] toksC9 := by
    intro j k tj tk hj hk htj htk hn
    simp only [List.mem_cons, List.not_mem_nil, or_false] at hj hk
    rw [hj, hk]
  obtain ⟨r, c, hr, hlook, hcount, hle, -⟩ :=
    claimC9_counter_invariants ["a", "x"] [0] toksC9 0
      ⟨"mixed", fun t => if t = "a" then some 3 else none⟩
      (by decide) (by decide) (by decide) rfl hinj
  exact ⟨by decide, by decide, by decide, r, c, hr, hlook, hcount, hle⟩

/-- Claim C7: selecting the aggregate-placeholder entry substitutes the
full list of non-placeholder model indices (never the placeholder itself);
loading that selection succeeds exactly on the non-placeholder,
non-auth-required, loadable models; and no successfully loaded index is
ever the placeholder or an auth-required or unloadable model, whatever the
selection. -/
theorem claimC7_placeholder_expansion (models : List ModelOption)
    (choices : List ℤ) (tryLoad : ℕ → Option (String → Option ℕ)) (a : ℕ)
    (ha : models.findIdx? (fun m => m.is_all_option) = some a)
    (hc : ((a : ℤ) + 1) ∈ choices) :
    expandSelection models choices =
      (List.range models.length).filter (fun i =>
        match models[i]? with
        | some m => !m.is_all_option
        | none => false) ∧
    (loadTokenizers models tryLoad (expandSelection models choices)).1 =
      (List.range models.length).filter (fun i =>
        match models[i]? with
        | some m => !m.is_all_option && !m.auth_required && (tryLoad i).isSome
        | none => false) ∧
    ∀ (indices : List ℕ) (i : ℕ),
      i ∈ (loadTokenizers models tryLoad indices).1 →
      ∃ m, models[i]? = some m ∧ m.is_all_option = false ∧
        m.auth_required = false ∧ (tryLoad i).isSome := by
  have hexp : expandSelection models choices =
      (List.range models.length).filter (fun i =>
        match models[i]? with
        | some m => !m.is_all_option
        | none => false) := by
    rw [expandSelection, ha]
    simp only [if_pos hc]
  refine ⟨hexp, ?_, ?_⟩
  · rw [hexp, loadTokenizers_fst, List.filter_filter]
    refine List.filter_congr ?_
    intro i _
    cases hm : models[i]? with
    | none => simp [keepIdx, hm]
    | some m =>
      cases hall : m.is_all_option <;>
        cases hauth : m.auth_required <;>
        simp [keepIdx, hm, hall, hauth]
  · intro indices i hi
    rw [loadTokenizers_fst] at hi
    have hk := List.of_mem_filter hi
    rw [keepIdx] at hk
    cases hm : models[i]? with
    | none => rw [hm] at hk; simp at hk
    | some m =>
      rw [hm] at hk
      simp only [Bool.and_eq_true, Bool.not_eq_true'] at hk
      exact ⟨m, rfl, hk.1.1, hk.1.2, hk.2⟩

/-- The model table of the C7 witness: a plain model, the aggregate
placeholder, and an auth-required model. -/
def modelsC7 : List ModelOption :=
  [⟨"A", false, false⟩, ⟨"ALL", true, false⟩, ⟨"B", false, true⟩]

/-- The load oracle of the C7 witness: only model 0 loads. -/
def tryLoadC7 : ℕ → Option (String → Option ℕ) := fun i =>
  if i = 0 then some (fun _ => some 1) else none

/-- Witness for C7: entering the placeholder's number (2) expands the
selection to the non-placeholder indices `[0, 2]`, and only the
non-auth-required, loadable model 0 is actually loaded. -/
theorem claimC7_placeholder_expansion_witness :
    modelsC7.findIdx? (fun m => m.is_all_option) = some 1 ∧
    ((1 : ℤ) + 1) ∈ ([2] : List ℤ) ∧
    expandSelection modelsC7 [2] = [0, 2] ∧
    (loadTokenizers modelsC7 tryLoadC7 (expandSelection modelsC7 [2])).1 = [0] := by
  obtain ⟨hexp, hload, -⟩ :=
    claimC7_placeholder_expansion modelsC7 [2] tryLoadC7 1 rfl (by decide)
  refine ⟨rfl, by decide, ?_, ?_⟩
  · rw [hexp]
    rfl
  · rw [hload]
    rfl
